import Mathlib

/-!
Shallow embedding of the bindown installer core (downloader.go, jsonschema.go).

The filesystem is modelled as a partial map from joined path strings to nodes
(regular files carrying their byte content as a `String`, or symlinks carrying
their target path).  External capabilities that the spec scopes out (the hash
function, the archiver, the HTTP client, `os.Create` succeeding) are collected
in an `Env` record of oracles.  Each effectful Go function becomes a Lean
function from a filesystem to a triple: an `Except` result, the new
filesystem, and the trace of externally visible effects it performed.
-/

namespace Bindown

/-- A filesystem node: a regular file with its content, or a symlink. -/
inductive Node : Type
| file (content : String)
| symlink (target : String)
deriving DecidableEq, Repr

/-- The filesystem: a partial map from (already joined) path strings to nodes. -/
def Fs : Type := String → Option Node

/-- The empty filesystem. -/
def fsEmpty : Fs := fun _ => none

/-- Write a node at a path (overwriting any previous entry). -/
def fsSet (fs : Fs) (p : String) (n : Node) : Fs :=
  fun q => if q = p then some n else fs q

/-- Remove the entry at a path.  This models `rm` (os.RemoveAll), which the
repository's helper wraps so that removing a missing path is not an error. -/
def fsErase (fs : Fs) (p : String) : Fs :=
  fun q => if q = p then none else fs q

/-- Read a regular file's content, following at most one symlink hop
(the repository never creates symlink chains). -/
def readFile (fs : Fs) (p : String) : Option String :=
  match fs p with
  | some (Node.file c) => some c
  | some (Node.symlink t) =>
    match fs t with
    | some (Node.file c) => some c
    | _ => none
  | none => none

/-- Modelled from the spec: helper `fileExists` is not under src/ (only its
callers are).  It stat-checks a path, following symlinks, so it holds exactly
when a regular file's content is reachable at the path. -/
def fileExists (fs : Fs) (p : String) : Bool :=
  (readFile fs p).isSome

/-- `filepath.Join` of a directory and one further component.  The repository
only joins non-empty, already clean segments, so cleaning is the identity and
joining is insertion of the separator. -/
def pathJoin (dir name : String) : String := dir ++ "/" ++ name

/-- Everything before the first occurrence of `c` (the whole list when `c` is
absent).  Used for the fragment and query splits of URL parsing. -/
def takeBefore (c : Char) : List Char → List Char
| [] => []
| x :: xs => if x = c then [] else x :: takeBefore c xs

/-- Characters allowed after the first character of a URL scheme. -/
def isSchemeChar (c : Char) : Bool :=
  c.isAlpha || c.isDigit || c = '+' || c = '-' || c = '.'

/-- Scan for `scheme:` after a valid first character: the characters after the
colon, when every character before it is a scheme character. -/
def schemeRestAux : List Char → Option (List Char)
| [] => none
| c :: cs => if c = ':' then some cs else if isSchemeChar c then schemeRestAux cs else none

/-- `getScheme` of net/url: when the string starts with `alpha schemechar* :`,
the part after the colon; otherwise `none` (no scheme, the input is relative). -/
def schemeRest : List Char → Option (List Char)
| [] => none
| c :: cs => if c.isAlpha then schemeRestAux cs else none

/-- Drop a leading `//authority` (host up to the next slash), as net/url does
when the part after the scheme starts with two slashes. -/
def dropAuthority (l : List Char) : List Char :=
  match l with
  | '/' :: '/' :: rest => rest.dropWhile (fun c => ¬ c = '/')
  | _ => l

/-- The `Path` component that `url.Parse` assigns, modelled on net/url:
strip the fragment (after the first `#`), strip the raw query (after the
first `?`), strip a valid `scheme:` prefix, then strip a `//host` authority.
A scheme-relative opaque remainder (scheme present, no leading slash) has an
empty path.  Percent-escapes and parse failures are not modelled: the
repository's URLs are plain. -/
def urlPathChars (raw : List Char) : List Char :=
  let noFrag := takeBefore '#' raw
  let noQuery := takeBefore '?' noFrag
  match schemeRest noQuery with
  | some rest =>
    match rest with
    | '/' :: '/' :: tl => tl.dropWhile (fun c => ¬ c = '/')
    | '/' :: tl => '/' :: tl
    | _ => []
  | none => dropAuthority noQuery

/-- `path.Base` from Go's path package: strip trailing slashes, then keep the
part after the last remaining slash; empty input gives `.` and an all-slash
input gives `/`. -/
def pathBaseChars (p : List Char) : List Char :=
  if p = [] then ['.']
  else
    let stripped := (p.reverse.dropWhile (fun c => c = '/')).reverse
    let last := (stripped.reverse.takeWhile (fun c => ¬ c = '/')).reverse
    if stripped = [] then ['/']
    else last

/-- The base name of the path component of a URL, as `downloadableName`
computes it: `path.Base(u.Path)` for the parsed URL. -/
def urlBaseName (raw : String) : String :=
  String.mk (pathBaseChars (urlPathChars raw.data))

/-- External capabilities, modelled as oracles: the checksum hash of byte
content, the archiver (`ByExtension` recognition by file name; the entries an
archive's content unpacks to, `none` meaning a corrupt archive), the HTTP
client (`none` is a transport or name-resolution error, otherwise the terminal
status and the body), and whether `os.Create` succeeds at a path. -/
structure Env : Type where
  hash : String → String
  recognized : String → Bool
  unpack : String → Option (List (String × String))
  httpGet : String → Option (Nat × String)
  createOk : String → Bool

/-- The `Downloader` struct of downloader.go. -/
structure Downloader : Type where
  url : String
  checksum : String
  linkSource : String
  binName : String
  moveFrom : String
  osName : String
  arch : String
deriving DecidableEq, Repr

/-- Structured embedding of the error values the installer produces. -/
inductive Err : Type
| httpErr (url : String)
| downloadFailed (url : String)
| createFailed (path : String)
| fileNotFound (path : String)
| checksumMismatch (file expected actual : String)
| unarchiveFailed (name : String)
| copyFailed (src : String)
| symlinkFailed (path : String)
| renameFailed (src dst : String)
| chmodFailed (path : String)
| missingChecksum (path : String)
deriving DecidableEq, Repr

/-- Externally visible effects, recorded in order of execution. -/
inductive Eff : Type
| fetch (url : String)
| write (path : String)
| delete (path : String)
| copy (src dst : String)
| unarch (path : String)
| symlinkE (src dst : String)
| renameE (src dst : String)
| chmodE (path : String)
deriving DecidableEq, Repr

/-- The uniform shape of an effectful stage: result, new filesystem, trace. -/
def StageR : Type := Except Err Unit × Fs × List Eff

/-- Sequencing of stages: an error propagates with its state and trace; on
success the continuation runs on the new state and the traces concatenate. -/
def andThen (r : StageR) (k : Fs → StageR) : StageR :=
  match r with
  | (Except.error e, fs, tr) => (Except.error e, fs, tr)
  | (Except.ok _, fs, tr) =>
    match k fs with
    | (res, fs2, tr2) => (res, fs2, tr ++ tr2)

/-- `downloadableName`: the base name of the parsed URL's path.  URL parse
failures are not modelled (net/url only rejects malformed escapes and control
characters, which the repository's URLs do not contain), so the name is total. -/
def Downloader.downloadableName (d : Downloader) : String :=
  urlBaseName d.url

/-- `downloadablePath`: where the downloaded file lives inside a directory. -/
def Downloader.downloadablePath (d : Downloader) (targetDir : String) : String :=
  pathJoin targetDir d.downloadableName

/-- `binPath`: the destination path of the installed binary. -/
def Downloader.binPath (d : Downloader) (targetDir : String) : String :=
  pathJoin targetDir d.binName

/-- Modelled from the spec: helper `fileChecksum` is not under src/ (only its
tests and callers are).  It reads the file and returns the hash of its
content, failing when the file does not exist. -/
def fileChecksum (env : Env) (fs : Fs) (p : String) : Except Err String :=
  match readFile fs p with
  | none => Except.error (Err.fileNotFound p)
  | some c => Except.ok (env.hash c)

/-- Modelled from the spec: helper `fileExistsWithChecksum` is not under src/
(only its tests are).  Per §4.3 and the tests, it holds exactly when the file
exists and its recomputed checksum equals the expected one. -/
def fileExistsWithChecksum (env : Env) (fs : Fs) (path checksum : String) : Bool :=
  match readFile fs path with
  | none => false
  | some c => env.hash c = checksum

/-- Modelled from the spec: helper `copyFile` is not under src/ (only its
callers are).  It copies a file's content to a new path, failing when the
source cannot be read. -/
def copyFile (fs : Fs) (src dst : String) : Except Err Fs :=
  match readFile fs src with
  | none => Except.error (Err.copyFailed src)
  | some c => Except.ok (fsSet fs dst (Node.file c))

/-- `downloadFile` (downloader.go lines 206-222): HTTP GET the URL; a
transport error or a terminal status of 300 or above is a failure before any
file is created; otherwise create the target file and write the body. -/
def downloadFile (env : Env) (targetPath url : String) (fs : Fs) : StageR :=
  match env.httpGet url with
  | none => (Except.error (Err.httpErr url), fs, [Eff.fetch url])
  | some (status, body) =>
    if 300 ≤ status then (Except.error (Err.downloadFailed url), fs, [Eff.fetch url])
    else if env.createOk targetPath then
      (Except.ok (), fsSet fs targetPath (Node.file body), [Eff.fetch url, Eff.write targetPath])
    else (Except.error (Err.createFailed targetPath), fs, [Eff.fetch url])

/-- `download` (downloader.go lines 102-119): if a file already sits at the
download path with a matching checksum, do nothing; otherwise fetch the URL
into that path.  `os.MkdirAll` is a no-op in the model (directories are
implicit). -/
def Downloader.download (env : Env) (d : Downloader) (downloadDir : String) (fs : Fs) : StageR :=
  let dlPath := d.downloadablePath downloadDir
  if fileExistsWithChecksum env fs dlPath d.checksum then (Except.ok (), fs, [])
  else downloadFile env dlPath d.url fs

/-- `validateChecksum` (downloader.go lines 121-142): recompute the checksum
of the downloaded file; on mismatch delete the file and fail with an error
carrying the expected and the actual value; on match leave it in place. -/
def Downloader.validateChecksum (env : Env) (d : Downloader) (targetDir : String) (fs : Fs) : StageR :=
  let targetFile := d.downloadablePath targetDir
  match fileChecksum env fs targetFile with
  | Except.error e => (Except.error e, fs, [])
  | Except.ok result =>
    if d.checksum ≠ result then
      (Except.error (Err.checksumMismatch targetFile d.checksum result),
       fsErase fs targetFile, [Eff.delete targetFile])
    else (Except.ok (), fs, [])

/-- Write a list of archive entries (relative path, content) under a
directory. -/
def writeEntries (fs : Fs) (dir : String) : List (String × String) → Fs
| [] => fs
| (rel, c) :: rest => writeEntries (fsSet fs (pathJoin dir rel) (Node.file c)) dir rest

/-- `extract` (downloader.go lines 78-100), translated as written: when the
archiver does not recognize the downloaded file's name, copy the raw file into
the extract directory under its original name; then — unconditionally, also on
the fallback path — attempt `archiver.Unarchive` on the downloaded file, which
fails for an unrecognized name (and for a corrupt archive); on success delete
the downloaded archive.  `archiver.ByExtension` and `archiver.Unarchive`
decide recognition from the same file name, so both consult
`env.recognized`. -/
def Downloader.extract (env : Env) (d : Downloader) (downloadDir extractDir : String) (fs : Fs) : StageR :=
  let dlName := d.downloadableName
  let tarPath := pathJoin downloadDir dlName
  let afterCopy : Except Err Fs × List Eff :=
    if env.recognized dlName then (Except.ok fs, [])
    else
      match copyFile fs tarPath (pathJoin extractDir dlName) with
      | Except.error e => (Except.error e, [])
      | Except.ok fs2 => (Except.ok fs2, [Eff.copy tarPath (pathJoin extractDir dlName)])
  match afterCopy with
  | (Except.error e, tr) => (Except.error e, fs, tr)
  | (Except.ok fs1, tr) =>
    if env.recognized dlName then
      match readFile fs1 tarPath with
      | none => (Except.error (Err.unarchiveFailed dlName), fs1, tr ++ [Eff.unarch tarPath])
      | some content =>
        match env.unpack content with
        | none => (Except.error (Err.unarchiveFailed dlName), fs1, tr ++ [Eff.unarch tarPath])
        | some entries =>
          (Except.ok (), fsErase (writeEntries fs1 extractDir entries) tarPath,
           tr ++ [Eff.unarch tarPath, Eff.delete tarPath])
    else (Except.error (Err.unarchiveFailed dlName), fs1, tr ++ [Eff.unarch tarPath])

/-- `link` (downloader.go lines 64-76): a no-op when no symlink source is
configured; otherwise remove an existing destination file and create the
symlink.  `os.Symlink` fails when an entry (such as a dangling symlink that
`fileExists` does not see) still occupies the destination. -/
def Downloader.link (d : Downloader) (targetDir extractDir : String) (fs : Fs) : StageR :=
  if d.linkSource = "" then (Except.ok (), fs, [])
  else
    let bp := d.binPath targetDir
    let step : Fs × List Eff :=
      if fileExists fs bp then (fsErase fs bp, [Eff.delete bp]) else (fs, [])
    match step with
    | (fs1, tr) =>
      let src := pathJoin extractDir d.linkSource
      match fs1 bp with
      | some _ => (Except.error (Err.symlinkFailed bp), fs1, tr)
      | none => (Except.ok (), fsSet fs1 bp (Node.symlink src), tr ++ [Eff.symlinkE src bp])

/-- `move` (downloader.go lines 51-62): a no-op when no move source is
configured; otherwise remove the destination entry and rename the extracted
file onto it.  `os.Rename` fails when the source entry does not exist. -/
def Downloader.move (d : Downloader) (targetDir extractDir : String) (fs : Fs) : StageR :=
  if d.moveFrom = "" then (Except.ok (), fs, [])
  else
    let bp := d.binPath targetDir
    let fs1 := fsErase fs bp
    let src := pathJoin extractDir d.moveFrom
    match fs1 src with
    | none => (Except.error (Err.renameFailed src bp), fs1, [Eff.delete bp])
    | some node =>
      (Except.ok (), fsSet (fsErase fs1 src) bp node, [Eff.delete bp, Eff.renameE src bp])

/-- `chmod` (downloader.go lines 47-49): `os.Chmod 0755` on the destination,
which fails when nothing exists there; permission bits themselves are not
modelled. -/
def Downloader.chmod (d : Downloader) (targetDir : String) (fs : Fs) : StageR :=
  let bp := d.binPath targetDir
  if fileExists fs bp then (Except.ok (), fs, [Eff.chmodE bp])
  else (Except.error (Err.chmodFailed bp), fs, [Eff.chmodE bp])

/-- `InstallOpts` of downloader.go. -/
structure InstallOpts : Type where
  targetDir : String
  downloadDir : String
  extractDir : String
  force : Bool
deriving DecidableEq, Repr

/-- The effective download directory: the checksum-keyed default under the
target directory when none is given. -/
def effDownloadDir (d : Downloader) (opts : InstallOpts) : String :=
  if opts.downloadDir = "" then
    pathJoin (pathJoin (pathJoin opts.targetDir ".bindownloader") "downloads") d.checksum
  else opts.downloadDir

/-- The effective extract directory: the checksum-keyed default under the
target directory when none is given. -/
def effExtractDir (d : Downloader) (opts : InstallOpts) : String :=
  if opts.extractDir = "" then
    pathJoin (pathJoin (pathJoin opts.targetDir ".bindownloader") "extracts") d.checksum
  else opts.extractDir

/-- The first three pipeline stages in sequence: download, verify, extract. -/
def Downloader.preStages (env : Env) (d : Downloader) (downloadDir extractDir : String) (fs : Fs) : StageR :=
  andThen (d.download env downloadDir fs) (fun fs1 =>
    andThen (d.validateChecksum env downloadDir fs1) (fun fs2 =>
      d.extract env downloadDir extractDir fs2))

/-- The placement stages in sequence: link, move, chmod. -/
def Downloader.placeStages (d : Downloader) (targetDir extractDir : String) (fs : Fs) : StageR :=
  andThen (d.link targetDir extractDir fs) (fun fs1 =>
    andThen (d.move targetDir extractDir fs1) (fun fs2 =>
      d.chmod targetDir fs2))

/-- `Install` (downloader.go lines 157-204): default the cache directories,
short-circuit when the destination already exists and `Force` is unset, then
run download, verify, extract, link, move, chmod in order, stopping at the
first failing stage. -/
def Downloader.Install (env : Env) (d : Downloader) (opts : InstallOpts) (fs : Fs) : StageR :=
  let downloadDir := effDownloadDir d opts
  let extractDir := effExtractDir d opts
  if fileExists fs (d.binPath opts.targetDir) && !opts.force then (Except.ok (), fs, [])
  else
    andThen (d.preStages env downloadDir extractDir fs) (fun fs3 =>
      d.placeStages opts.targetDir extractDir fs3)

/-- The external collaborators of jsonschema.go at their interface: the
YAML-to-JSON conversion (`none` on invalid YAML) and the black-box schema
validator (an unexpected validator error, or the list of validation
messages). -/
structure SchemaEnv : Type where
  yamlToJson : String → Option String
  schemaValidate : String → Except String (List String)

/-- The error values `validateConfig` can produce.  The invalid-config error
carries the full (sorted) list of validation messages that the Go code joins
into its message string. -/
inductive CfgErr : Type
| notYaml
| validateErr (m : String)
| invalid (msgs : List String)
deriving DecidableEq, Repr

/-- `validateConfig` (jsonschema.go lines 19-44): convert the config to JSON,
run the schema validator, succeed exactly on an empty message list, and
otherwise report every message, sorted.  Unmarshalling the embedded schema
constant never fails and is not modelled. -/
def validateConfig (env : SchemaEnv) (cfg : String) : Option CfgErr :=
  match env.yamlToJson cfg with
  | none => some CfgErr.notYaml
  | some j =>
    match env.schemaValidate j with
    | Except.error m => some (CfgErr.validateErr m)
    | Except.ok msgs =>
      if msgs = [] then none
      else some (CfgErr.invalid (msgs.insertionSort (fun a b => a ≤ b)))

/-! ### Sample values used by the witnesses -/

/-- A sample environment: the hash tags the content, `.tar.gz` names are
recognized archives, archives unpack to a single `bin/foo.txt` entry, the
HTTP client serves `foo-bytes`, and file creation succeeds. -/
def envW : Env where
  hash := fun c => "sha-" ++ c
  recognized := fun n => n.endsWith ".tar.gz"
  unpack := fun c => some [("bin/foo.txt", c)]
  httpGet := fun _ => some (200, "foo-bytes")
  createOk := fun _ => true

/-- A sample downloader matching `envW`. -/
def dW : Downloader where
  url := "https://example.com/dl/foo.tar.gz?a=1"
  checksum := "sha-foo-bytes"
  linkSource := ""
  binName := "foo"
  moveFrom := "bin/foo.txt"
  osName := "darwin"
  arch := "amd64"

/-- A filesystem that already has the destination binary in place. -/
def fsBin : Fs := fsSet fsEmpty "tgt/foo" (Node.file "old")

/-- Sample install options with `Force` unset. -/
def optsW : InstallOpts where
  targetDir := "tgt"
  downloadDir := ""
  extractDir := ""
  force := false

/-! ### C1 — short-circuit idempotence of Install -/

/-- C1: with `Force = false` and the destination binary already present,
`Install` returns success immediately, changes nothing, and performs no
effect at all (no download, verify, extract, place or chmod step, and in
particular no network access); a second call on the resulting state returns
the same successful result. -/
theorem install_short_circuit_idempotent (env : Env) (d : Downloader) (opts : InstallOpts)
    (fs : Fs) (hex : fileExists fs (d.binPath opts.targetDir) = true)
    (hf : opts.force = false) :
    d.Install env opts fs = (Except.ok (), fs, []) ∧
    d.Install env opts ((d.Install env opts fs).2.1) = (Except.ok (), fs, []) := by
  have h1 : d.Install env opts fs = (Except.ok (), fs, []) := by
    unfold Downloader.Install
    simp [hex, hf]
  refine ⟨h1, ?_⟩
  rw [h1]
  exact h1

/-- Witness for C1 at a concrete input: the destination `tgt/foo` exists,
`Force` is false, and the call returns success without effects. -/
theorem install_short_circuit_idempotent_witness :
    Downloader.Install envW dW optsW fsBin = (Except.ok (), fsBin, []) :=
  (install_short_circuit_idempotent envW dW optsW fsBin (by decide) rfl).1

/-! ### C2 — checksum validation deletes on mismatch, keeps on match -/

/-- C2: with a non-empty expected checksum and the downloaded file present,
`validateChecksum` on a differing recomputed checksum deletes the downloaded
file and returns an error carrying both the expected and the actual value,
and on a matching checksum returns success leaving the file in place. -/
theorem validateChecksum_mismatch_deletes_match_keeps (env : Env) (d : Downloader)
    (dir : String) (fs : Fs) (content : String)
    (hnonempty : d.checksum ≠ "")
    (hread : readFile fs (d.downloadablePath dir) = some content) :
    (env.hash content ≠ d.checksum →
      d.validateChecksum env dir fs =
        (Except.error (Err.checksumMismatch (d.downloadablePath dir) d.checksum (env.hash content)),
         fsErase fs (d.downloadablePath dir), [Eff.delete (d.downloadablePath dir)]) ∧
      readFile (fsErase fs (d.downloadablePath dir)) (d.downloadablePath dir) = none) ∧
    (env.hash content = d.checksum →
      d.validateChecksum env dir fs = (Except.ok (), fs, []) ∧
      readFile fs (d.downloadablePath dir) = some content) := by
  constructor
  · intro hne
    constructor
    · unfold Downloader.validateChecksum
      simp only [fileChecksum, hread]
      rw [if_pos (Ne.symm hne)]
    · simp [readFile, fsErase]
  · intro heq
    constructor
    · unfold Downloader.validateChecksum
      simp only [fileChecksum, hread]
      rw [if_neg (by simp [heq])]
    · exact hread

/-- Witness for C2 at a concrete input: a file whose hash differs from the
expected checksum is deleted with an error carrying both values. -/
theorem validateChecksum_mismatch_witness :
    Downloader.validateChecksum envW
      { dW with checksum := "deadbeef" } "dl"
      (fsSet fsEmpty "dl/foo.tar.gz" (Node.file "foo-bytes")) =
      (Except.error (Err.checksumMismatch "dl/foo.tar.gz" "deadbeef" "sha-foo-bytes"),
       fsErase (fsSet fsEmpty "dl/foo.tar.gz" (Node.file "foo-bytes")) "dl/foo.tar.gz",
       [Eff.delete "dl/foo.tar.gz"]) :=
  ((validateChecksum_mismatch_deletes_match_keeps envW { dW with checksum := "deadbeef" }
      "dl" (fsSet fsEmpty "dl/foo.tar.gz" (Node.file "foo-bytes")) "foo-bytes"
      (by decide) (by decide)).1 (by decide)).1

/-! ### C5 — download skips fetching exactly on a checksum-valid cache hit -/

/-- Every run of `downloadFile` contacts the network for its URL. -/
theorem downloadFile_fetches (env : Env) (p url : String) (fs : Fs) :
    Eff.fetch url ∈ (downloadFile env p url fs).2.2 := by
  unfold downloadFile
  cases env.httpGet url with
  | none => simp
  | some sb =>
    rcases sb with ⟨status, body⟩
    by_cases h3 : 300 ≤ status
    · simp [h3]
    · by_cases hc : env.createOk p
      · simp [h3, hc]
      · simp [h3, hc]

/-- C5: the download step returns success without any effect exactly when a
file already sits at the download path with a matching recomputed checksum;
when the file is absent, or present with a differing checksum, it runs
`downloadFile`, which fetches the URL. -/
theorem download_skips_iff_cached_valid (env : Env) (d : Downloader) (dir : String) (fs : Fs) :
    (∀ c, readFile fs (d.downloadablePath dir) = some c → env.hash c = d.checksum →
      d.download env dir fs = (Except.ok (), fs, [])) ∧
    (∀ c, readFile fs (d.downloadablePath dir) = some c → env.hash c ≠ d.checksum →
      d.download env dir fs = downloadFile env (d.downloadablePath dir) d.url fs ∧
      Eff.fetch d.url ∈ (d.download env dir fs).2.2) ∧
    (readFile fs (d.downloadablePath dir) = none →
      d.download env dir fs = downloadFile env (d.downloadablePath dir) d.url fs ∧
      Eff.fetch d.url ∈ (d.download env dir fs).2.2) := by
  refine ⟨?_, ?_, ?_⟩
  · intro c hc hh
    unfold Downloader.download
    rw [if_pos]
    unfold fileExistsWithChecksum
    rw [hc]
    simp [hh]
  · intro c hc hh
    have hcond : fileExistsWithChecksum env fs (d.downloadablePath dir) d.checksum = false := by
      unfold fileExistsWithChecksum
      rw [hc]
      simp [hh]
    constructor
    · unfold Downloader.download
      rw [if_neg (by simp [hcond])]
    · unfold Downloader.download
      rw [if_neg (by simp [hcond])]
      exact downloadFile_fetches env (d.downloadablePath dir) d.url fs
  · intro hnone
    have hcond : fileExistsWithChecksum env fs (d.downloadablePath dir) d.checksum = false := by
      unfold fileExistsWithChecksum
      rw [hnone]
    constructor
    · unfold Downloader.download
      rw [if_neg (by simp [hcond])]
    · unfold Downloader.download
      rw [if_neg (by simp [hcond])]
      exact downloadFile_fetches env (d.downloadablePath dir) d.url fs

/-- Witness for C5 at a concrete input: a cached file with the matching
checksum makes the download step a no-op. -/
theorem download_skips_iff_cached_valid_witness :
    Downloader.download envW dW "dl" (fsSet fsEmpty "dl/foo.tar.gz" (Node.file "foo-bytes")) =
      (Except.ok (), fsSet fsEmpty "dl/foo.tar.gz" (Node.file "foo-bytes"), []) :=
  (download_skips_iff_cached_valid envW dW "dl"
      (fsSet fsEmpty "dl/foo.tar.gz" (Node.file "foo-bytes"))).1 "foo-bytes"
    (by decide) (by decide)

/-! ### C3 — the extract stage attempts unarchiving even on the raw-copy path -/

/-- An environment in which no file name is a recognized archive format. -/
def envRaw : Env where
  hash := fun _ => "c"
  recognized := fun _ => false
  unpack := fun _ => none
  httpGet := fun _ => none
  createOk := fun _ => true

/-- A downloader whose downloadable is the bare binary `foo`, not an archive. -/
def dRaw : Downloader where
  url := "https://example.com/dl/foo"
  checksum := "c"
  linkSource := ""
  binName := "foo"
  moveFrom := ""
  osName := ""
  arch := ""

/-- A download directory containing the raw downloadable `foo`. -/
def fsRaw : Fs := fsSet fsEmpty "dl/foo" (Node.file "rawbinary")

/-- C3 (failing input): for the unrecognized name `foo` the extract stage does
copy the raw file into the extract directory under its original name, but then
still attempts `archiver.Unarchive` on it — the trace records the attempt —
and that attempt fails, so the whole stage returns an error instead of
succeeding with the copied file. -/
theorem extract_unrecognized_attempts_unarchive :
    (dRaw.extract envRaw "dl" "ex" fsRaw).1 = Except.error (Err.unarchiveFailed "foo") ∧
    (dRaw.extract envRaw "dl" "ex" fsRaw).2.2 = [Eff.copy "dl/foo" "ex/foo", Eff.unarch "dl/foo"] ∧
    ((dRaw.extract envRaw "dl" "ex" fsRaw).2.1) "ex/foo" = some (Node.file "rawbinary") := by
  refine ⟨by rfl, by rfl, by rfl⟩

/-! ### C4 — an absent checksum is treated as an ordinary mismatch -/

/-- An environment for the empty-checksum run: the HTTP client serves `body`,
whose hash `sha-body` is non-empty. -/
def envC4 : Env where
  hash := fun c => "sha-" ++ c
  recognized := fun _ => true
  unpack := fun _ => some []
  httpGet := fun _ => some (200, "body")
  createOk := fun _ => true

/-- A descriptor carrying no checksum. -/
def dC4 : Downloader where
  url := "http://h/foo"
  checksum := ""
  linkSource := ""
  binName := "bin"
  moveFrom := ""
  osName := ""
  arch := ""

/-- Install options with explicit cache directories. -/
def optsC4 : InstallOpts where
  targetDir := "t"
  downloadDir := "dl"
  extractDir := "ex"
  force := false

/-- C4 (counterexample): with no checksum in the descriptor and no allow flag
anywhere in `InstallOpts`, install does not skip verification and does not
fail with a missing-checksum error; it treats the empty expected value as an
ordinary mismatch, failing with a checksum-mismatch error that carries the
empty expected checksum. -/
theorem install_empty_checksum_counterexample :
    (Downloader.Install envC4 dC4 optsC4 fsEmpty).1 =
      Except.error (Err.checksumMismatch "dl/foo" "" "sha-body") ∧
    ∀ p, (Downloader.Install envC4 dC4 optsC4 fsEmpty).1 ≠
      Except.error (Err.missingChecksum p) := by
  refine ⟨by rfl, ?_⟩
  intro p h
  have h1 : (Downloader.Install envC4 dC4 optsC4 fsEmpty).1 =
      Except.error (Err.checksumMismatch "dl/foo" "" "sha-body") := by rfl
  rw [h1] at h
  simp at h

/-- C4 (amended): when the descriptor's checksum is empty and the downloaded
file's recomputed checksum is not, `validateChecksum` treats the empty
expected value as an ordinary mismatch: it deletes the downloaded file and
fails with a checksum-mismatch error whose expected value is the empty
string. -/
theorem validateChecksum_empty_checksum_as_mismatch (env : Env) (d : Downloader)
    (dir : String) (fs : Fs) (content : String)
    (hck : d.checksum = "")
    (hread : readFile fs (d.downloadablePath dir) = some content)
    (hnz : env.hash content ≠ "") :
    d.validateChecksum env dir fs =
      (Except.error (Err.checksumMismatch (d.downloadablePath dir) "" (env.hash content)),
       fsErase fs (d.downloadablePath dir), [Eff.delete (d.downloadablePath dir)]) := by
  unfold Downloader.validateChecksum
  simp only [fileChecksum, hread]
  rw [if_pos (by rw [hck]; exact fun hh => hnz hh.symm)]
  rw [hck]

/-- Witness for the amended C4 at a concrete input. -/
theorem validateChecksum_empty_checksum_witness :
    Downloader.validateChecksum envC4 dC4 "dl"
      (fsSet fsEmpty "dl/foo" (Node.file "body")) =
      (Except.error (Err.checksumMismatch "dl/foo" "" "sha-body"),
       fsErase (fsSet fsEmpty "dl/foo" (Node.file "body")) "dl/foo",
       [Eff.delete "dl/foo"]) :=
  validateChecksum_empty_checksum_as_mismatch envC4 dC4 "dl"
    (fsSet fsEmpty "dl/foo" (Node.file "body")) "body" rfl (by decide) (by decide)

/-! ### C6 — a failed early stage and the destination path -/

/-- Unpacking archive entries touches only paths inside the extract
directory. -/
theorem writeEntries_frame (fs : Fs) (dir p : String) (entries : List (String × String))
    (h : ∀ s, p ≠ pathJoin dir s) :
    writeEntries fs dir entries p = fs p := by
  induction entries generalizing fs with
  | nil => rfl
  | cons e rest ih =>
    rcases e with ⟨rel, c⟩
    rw [writeEntries, ih (fsSet fs (pathJoin dir rel) (Node.file c))]
    simp [fsSet, h rel]

/-- The download stage only ever writes the download path. -/
theorem download_frame (env : Env) (d : Downloader) (dir : String) (fs : Fs) (p : String)
    (h : p ≠ d.downloadablePath dir) :
    ((d.download env dir fs).2.1) p = fs p := by
  unfold Downloader.download
  cases hc : fileExistsWithChecksum env fs (d.downloadablePath dir) d.checksum with
  | true => simp [hc]
  | false =>
    simp only [hc, Bool.false_eq_true, if_false]
    unfold downloadFile
    cases hg : env.httpGet d.url with
    | none => simp
    | some sb =>
      rcases sb with ⟨st, body⟩
      by_cases h3 : 300 ≤ st
      · simp [h3]
      · cases hco : env.createOk (d.downloadablePath dir) with
        | true => simp [h3, hco, fsSet, h]
        | false => simp [h3, hco]

/-- The verify stage only ever deletes the download path. -/
theorem validateChecksum_frame (env : Env) (d : Downloader) (dir : String) (fs : Fs) (p : String)
    (h : p ≠ d.downloadablePath dir) :
    ((d.validateChecksum env dir fs).2.1) p = fs p := by
  unfold Downloader.validateChecksum
  cases hf : fileChecksum env fs (d.downloadablePath dir) with
  | error e => simp [hf]
  | ok result =>
    simp only [hf]
    by_cases hne : d.checksum ≠ result
    · simp [hne, fsErase, h]
    · simp [hne]

/-- The extract stage only ever writes under the extract directory and
deletes the download path. -/
theorem extract_frame (env : Env) (d : Downloader) (dlDir exDir : String) (fs : Fs) (p : String)
    (h1 : p ≠ d.downloadablePath dlDir)
    (h2 : ∀ s, p ≠ pathJoin exDir s) :
    ((d.extract env dlDir exDir fs).2.1) p = fs p := by
  have h1' : p ≠ pathJoin dlDir d.downloadableName := h1
  unfold Downloader.extract
  cases hr : env.recognized d.downloadableName with
  | true =>
    simp only [hr, if_true]
    cases hrf : readFile fs (pathJoin dlDir d.downloadableName) with
    | none => simp [hrf]
    | some content =>
      simp only [hrf]
      cases hu : env.unpack content with
      | none => simp [hu]
      | some entries =>
        simp only [hu]
        simp only [fsErase]
        rw [if_neg h1']
        exact writeEntries_frame fs exDir p entries h2
  | false =>
    simp only [hr, Bool.false_eq_true, if_false]
    cases hrf : readFile fs (pathJoin dlDir d.downloadableName) with
    | none => simp [copyFile, hrf]
    | some content =>
      simp only [copyFile, hrf]
      simp [fsSet, h2 d.downloadableName]

/-- The first three stages together never touch a path that is neither the
download path nor inside the extract directory, whatever their outcome. -/
theorem preStages_frame (env : Env) (d : Downloader) (dlDir exDir : String) (fs : Fs) (p : String)
    (h1 : p ≠ d.downloadablePath dlDir)
    (h2 : ∀ s, p ≠ pathJoin exDir s) :
    ((d.preStages env dlDir exDir fs).2.1) p = fs p := by
  unfold Downloader.preStages
  rcases hdl : d.download env dlDir fs with ⟨res1, fs1, tr1⟩
  have hfs1 : fs1 p = fs p := by
    have hh := download_frame env d dlDir fs p h1
    rw [hdl] at hh
    exact hh
  cases res1 with
  | error e => simp [andThen, hdl, hfs1]
  | ok u =>
    rcases hvc : d.validateChecksum env dlDir fs1 with ⟨res2, fs2, tr2⟩
    have hfs2 : fs2 p = fs1 p := by
      have hh := validateChecksum_frame env d dlDir fs1 p h1
      rw [hvc] at hh
      exact hh
    cases res2 with
    | error e => simp [andThen, hdl, hvc, hfs2, hfs1]
    | ok u2 =>
      rcases hex : d.extract env dlDir exDir fs2 with ⟨res3, fs3, tr3⟩
      have hfs3 : fs3 p = fs2 p := by
        have hh := extract_frame env d dlDir exDir fs2 p h1 h2
        rw [hex] at hh
        exact hh
      cases res3 with
      | error e => simp [andThen, hdl, hvc, hex, hfs3, hfs2, hfs1]
      | ok u3 => simp [andThen, hdl, hvc, hex, hfs3, hfs2, hfs1]

/-- C6 (amended): when one of the download, verify, or extract stages fails,
`Install` returns exactly that stage's error, and — provided the destination
path does not alias the download path or a path inside the extract directory,
as is the case for the default cache directories — the destination entry is
exactly what it was before the call. -/
theorem install_failed_stage_preserves_destination (env : Env) (d : Downloader)
    (opts : InstallOpts) (fs fs2 : Fs) (e : Err) (tr : List Eff)
    (hsc : fileExists fs (d.binPath opts.targetDir) = false ∨ opts.force = true)
    (hfail : d.preStages env (effDownloadDir d opts) (effExtractDir d opts) fs =
      (Except.error e, fs2, tr))
    (h1 : d.binPath opts.targetDir ≠ d.downloadablePath (effDownloadDir d opts))
    (h2 : ∀ s, d.binPath opts.targetDir ≠ pathJoin (effExtractDir d opts) s) :
    d.Install env opts fs = (Except.error e, fs2, tr) ∧
    fs2 (d.binPath opts.targetDir) = fs (d.binPath opts.targetDir) := by
  constructor
  · unfold Downloader.Install
    have hcond : (fileExists fs (d.binPath opts.targetDir) && !opts.force) = false := by
      rcases hsc with hn | hf
      · simp [hn]
      · simp [hf]
    rw [if_neg (by simp [hcond])]
    rw [hfail]
    rfl
  · have hh := preStages_frame env d (effDownloadDir d opts) (effExtractDir d opts) fs
      (d.binPath opts.targetDir) h1 h2
    rw [hfail] at hh
    exact hh

/-- An environment for the aliased run: every content hashes to `c`, nothing
is a recognized archive, and the HTTP client serves `body`. -/
def envAl : Env where
  hash := fun _ => "c"
  recognized := fun _ => false
  unpack := fun _ => none
  httpGet := fun _ => some (200, "body")
  createOk := fun _ => true

/-- A downloader whose downloadable name equals its binary name. -/
def dAl : Downloader where
  url := "http://h/foo"
  checksum := "c"
  linkSource := ""
  binName := "foo"
  moveFrom := ""
  osName := ""
  arch := ""

/-- Install options that alias the download directory with the target
directory. -/
def optsAl : InstallOpts where
  targetDir := "t"
  downloadDir := "t"
  extractDir := "ex"
  force := false

/-- C6 (counterexample): with the download directory aliased onto the target
directory and a downloadable named like the binary, a failing extract stage
returns an error while the downloaded file now sits exactly at the
destination path `t/foo`, which was empty before the call — so a failed
install can leave a file at the destination. -/
theorem install_aliased_counterexample :
    (Downloader.Install envAl dAl optsAl fsEmpty).1 =
      Except.error (Err.unarchiveFailed "foo") ∧
    fsEmpty (dAl.binPath "t") = none ∧
    ((Downloader.Install envAl dAl optsAl fsEmpty).2.1) (dAl.binPath "t") =
      some (Node.file "body") := by
  refine ⟨by rfl, by rfl, by rfl⟩

/-- The downloader of the default-directory failing run: the expected
checksum `right` never matches the served body's hash. -/
def dC6w : Downloader := { dC4 with checksum := "right" }

/-- Install options leaving both cache directories to their defaults. -/
def optsC6w : InstallOpts := { optsC4 with downloadDir := "", extractDir := "" }

/-- Witness for the amended C6 at a concrete input: a run with the default
cache directories fails in the verify stage (the served body hashes to
`sha-body`, not the expected checksum) and leaves the absent destination
absent. -/
theorem install_failed_stage_witness :
    Downloader.Install envC4 dC6w optsC6w fsEmpty =
      (Except.error (Err.checksumMismatch
        "t/.bindownloader/downloads/right/foo" "right" "sha-body"),
       fsErase (fsSet fsEmpty "t/.bindownloader/downloads/right/foo" (Node.file "body"))
         "t/.bindownloader/downloads/right/foo",
       [Eff.fetch "http://h/foo", Eff.write "t/.bindownloader/downloads/right/foo",
        Eff.delete "t/.bindownloader/downloads/right/foo"]) ∧
    ((Downloader.Install envC4 dC6w optsC6w fsEmpty).2.1) "t/bin" = none :=
  ⟨(install_failed_stage_preserves_destination envC4 dC6w optsC6w fsEmpty _ _ _
      (Or.inl (by rfl)) (by rfl) (by decide) (fun s => by
        intro hcontra
        have hpre : effExtractDir dC6w optsC6w = "t/.bindownloader/extracts/right" := rfl
        have hbp : dC6w.binPath optsC6w.targetDir = "t/bin" := rfl
        rw [hpre, hbp] at hcontra
        simp only [pathJoin] at hcontra
        have hl := congrArg String.length hcontra
        rw [String.length_append, String.length_append] at hl
        have h5 : ("t/bin" : String).length = 5 := by decide
        have h30 : ("t/.bindownloader/extracts/right" : String).length = 31 := by decide
        have hone : ("/" : String).length = 1 := by decide
        rw [h5, h30, hone] at hl
        omega)).1,
   by rfl⟩

/-! ### C7 — an unreachable URL fails the install, leaving no destination -/

/-- C7: when the fetch fails — a transport or name-resolution error, a
terminal status of 300 or above, or a failing write to the target path —
`downloadFile` returns an error, and an install in that situation (no
destination binary yet, no checksum-valid cached download) fails with exactly
that error after the single fetch attempt, leaving no file at the destination
path. -/
theorem downloadFile_unreachable_install_fails (env : Env) (d : Downloader)
    (opts : InstallOpts) (fs : Fs)
    (hdest : readFile fs (d.binPath opts.targetDir) = none)
    (hcache : fileExistsWithChecksum env fs
      (d.downloadablePath (effDownloadDir d opts)) d.checksum = false)
    (hbad : env.httpGet d.url = none ∨
      (∃ st body, env.httpGet d.url = some (st, body) ∧ 300 ≤ st) ∨
      (∃ st body, env.httpGet d.url = some (st, body) ∧ st < 300 ∧
        env.createOk (d.downloadablePath (effDownloadDir d opts)) = false)) :
    ∃ e, downloadFile env (d.downloadablePath (effDownloadDir d opts)) d.url fs =
        (Except.error e, fs, [Eff.fetch d.url]) ∧
      d.Install env opts fs = (Except.error e, fs, [Eff.fetch d.url]) ∧
      readFile ((d.Install env opts fs).2.1) (d.binPath opts.targetDir) = none := by
  have hfe : fileExists fs (d.binPath opts.targetDir) = false := by
    simp only [fileExists, hdest, Option.isSome_none]
  have hdl : d.download env (effDownloadDir d opts) fs =
      downloadFile env (d.downloadablePath (effDownloadDir d opts)) d.url fs := by
    unfold Downloader.download
    rw [if_neg (by simp [hcache])]
  obtain ⟨e, hdf⟩ : ∃ e,
      downloadFile env (d.downloadablePath (effDownloadDir d opts)) d.url fs =
        (Except.error e, fs, [Eff.fetch d.url]) := by
    rcases hbad with hn | ⟨st, body, hg, h3⟩ | ⟨st, body, hg, h3, hco⟩
    · exact ⟨Err.httpErr d.url, by unfold downloadFile; rw [hn]⟩
    · refine ⟨Err.downloadFailed d.url, ?_⟩
      unfold downloadFile
      rw [hg]
      simp [h3]
    · refine ⟨Err.createFailed (d.downloadablePath (effDownloadDir d opts)), ?_⟩
      unfold downloadFile
      rw [hg]
      dsimp only
      rw [if_neg (by omega), if_neg (by simp [hco])]
  have hpre : d.preStages env (effDownloadDir d opts) (effExtractDir d opts) fs =
      (Except.error e, fs, [Eff.fetch d.url]) := by
    unfold Downloader.preStages
    rw [hdl, hdf]
    rfl
  have hinst : d.Install env opts fs = (Except.error e, fs, [Eff.fetch d.url]) := by
    unfold Downloader.Install
    rw [if_neg (by simp [hfe])]
    rw [hpre]
    rfl
  exact ⟨e, hdf, hinst, by rw [hinst]; exact hdest⟩

/-- The sample environment with the network unreachable. -/
def envBad : Env := { envW with httpGet := fun _ => none }

/-- Witness for C7 at a concrete input: with an unreachable URL, the install
fails after the single fetch attempt and the destination stays absent. -/
theorem downloadFile_unreachable_witness :
    ∃ e, Downloader.Install envBad dW optsW fsEmpty =
        (Except.error e, fsEmpty, [Eff.fetch "https://example.com/dl/foo.tar.gz?a=1"]) ∧
      readFile ((Downloader.Install envBad dW optsW fsEmpty).2.1) "tgt/foo" = none := by
  obtain ⟨e, hdf, hinst, hnone⟩ :=
    downloadFile_unreachable_install_fails envBad dW optsW fsEmpty rfl rfl (Or.inl rfl)
  exact ⟨e, hinst, hnone⟩

/-! ### C8 — validateConfig succeeds exactly on an empty message list -/

/-- C8: when the config converts to JSON and the schema validator returns a
message list, `validateConfig` succeeds exactly when the list is empty, and on
a non-empty list it returns an invalid-config error containing every
validation message (a sorted copy, nothing suppressed). -/
theorem validateConfig_empty_iff_reports_all (env : SchemaEnv) (cfg j : String)
    (msgs : List String)
    (hy : env.yamlToJson cfg = some j) (hv : env.schemaValidate j = Except.ok msgs) :
    (validateConfig env cfg = none ↔ msgs = []) ∧
    (msgs ≠ [] → ∃ ms, validateConfig env cfg = some (CfgErr.invalid ms) ∧
      ∀ m, m ∈ ms ↔ m ∈ msgs) := by
  unfold validateConfig
  rw [hy]
  dsimp only
  rw [hv]
  dsimp only
  constructor
  · by_cases h : msgs = []
    · simp [h]
    · simp [h]
  · intro h
    rw [if_neg h]
    refine ⟨msgs.insertionSort (fun a b => a ≤ b), rfl, ?_⟩
    intro m
    exact (List.perm_insertionSort (fun a b => a ≤ b) msgs).mem_iff

/-- A sample schema environment: the identity YAML conversion and a validator
producing two fixed messages in unsorted order. -/
def schemaEnvW : SchemaEnv where
  yamlToJson := fun c => some c
  schemaValidate := fun _ => Except.ok ["m2", "m1"]

/-- Witness for C8 at a concrete input: two validation messages make
`validateConfig` fail with an error containing exactly those messages. -/
theorem validateConfig_witness :
    (validateConfig schemaEnvW "cfg" = none ↔ (["m2", "m1"] : List String) = []) ∧
    ∃ ms, validateConfig schemaEnvW "cfg" = some (CfgErr.invalid ms) ∧
      ∀ m, m ∈ ms ↔ m ∈ (["m2", "m1"] : List String) :=
  ⟨(validateConfig_empty_iff_reports_all schemaEnvW "cfg" "cfg" ["m2", "m1"] rfl rfl).1,
   (validateConfig_empty_iff_reports_all schemaEnvW "cfg" "cfg" ["m2", "m1"] rfl rfl).2
     (by decide)⟩

/-! ### C9 — query and fragment never affect the downloadable name -/

/-- `takeBefore` keeps a list free of its separator unchanged. -/
theorem takeBefore_of_not_mem (c : Char) (xs : List Char) (h : c ∉ xs) :
    takeBefore c xs = xs := by
  induction xs with
  | nil => rfl
  | cons x tl ih =>
    rw [takeBefore]
    rw [if_neg (by rintro rfl; exact h (List.mem_cons_self x tl))]
    rw [ih (fun hm => h (List.mem_cons_of_mem x hm))]

/-- `takeBefore` cuts exactly at the first separator occurrence. -/
theorem takeBefore_append (c : Char) (xs ys : List Char) (h : c ∉ xs) :
    takeBefore c (xs ++ c :: ys) = xs := by
  induction xs with
  | nil => simp [takeBefore]
  | cons x tl ih =>
    rw [List.cons_append, takeBefore]
    rw [if_neg (by rintro rfl; exact h (List.mem_cons_self x tl))]
    rw [ih (fun hm => h (List.mem_cons_of_mem x hm))]

/-- Appending a fragment does not change the URL's path component. -/
theorem urlPathChars_append_fragment (xs f : List Char) (h : '#' ∉ xs) :
    urlPathChars (xs ++ '#' :: f) = urlPathChars xs := by
  unfold urlPathChars
  dsimp only
  rw [takeBefore_append '#' xs f h, takeBefore_of_not_mem '#' xs h]

/-- Appending a query does not change the URL's path component. -/
theorem urlPathChars_append_query (xs q : List Char) (hq : '?' ∉ xs) (hh : '#' ∉ xs)
    (hhq : '#' ∉ q) :
    urlPathChars (xs ++ '?' :: q) = urlPathChars xs := by
  unfold urlPathChars
  have h1 : '#' ∉ xs ++ '?' :: q := by
    intro hm
    rcases List.mem_append.mp hm with hm1 | hm2
    · exact hh hm1
    · rcases List.mem_cons.mp hm2 with he | hm3
      · exact absurd he (by decide)
      · exact hhq hm3
  dsimp only
  rw [takeBefore_of_not_mem '#' _ h1, takeBefore_of_not_mem '#' xs hh,
    takeBefore_append '?' xs q hq, takeBefore_of_not_mem '?' xs hq]

/-- C9: the name of the file written into the download directory is the base
name of the URL's path component only — appending a query, a fragment, or
both to a URL never changes `downloadableName` or the download cache path. -/
theorem downloadableName_ignores_query_and_fragment (d1 d2 d3 dbase : Downloader)
    (base q f : String)
    (hq : ('?' : Char) ∉ base.data) (hh : ('#' : Char) ∉ base.data)
    (hhq : ('#' : Char) ∉ q.data)
    (h1 : d1.url = base ++ "?" ++ q) (h2 : d2.url = base ++ "#" ++ f)
    (h3 : d3.url = base ++ "?" ++ q ++ "#" ++ f) (hb : dbase.url = base) :
    dbase.downloadableName = String.mk (pathBaseChars (urlPathChars base.data)) ∧
    d1.downloadableName = dbase.downloadableName ∧
    d2.downloadableName = dbase.downloadableName ∧
    d3.downloadableName = dbase.downloadableName ∧
    ∀ dir, d1.downloadablePath dir = dbase.downloadablePath dir ∧
      d2.downloadablePath dir = dbase.downloadablePath dir ∧
      d3.downloadablePath dir = dbase.downloadablePath dir := by
  have hd1 : d1.url.data = base.data ++ '?' :: q.data := by
    rw [h1]
    simp [String.data_append]
  have hd2 : d2.url.data = base.data ++ '#' :: f.data := by
    rw [h2]
    simp [String.data_append]
  have hd3 : d3.url.data = (base.data ++ '?' :: q.data) ++ '#' :: f.data := by
    rw [h3]
    simp [String.data_append]
  have hnf : ('#' : Char) ∉ base.data ++ '?' :: q.data := by
    intro hm
    rcases List.mem_append.mp hm with hm1 | hm2
    · exact hh hm1
    · rcases List.mem_cons.mp hm2 with he | hm3
      · exact absurd he (by decide)
      · exact hhq hm3
  have hn1 : d1.downloadableName = dbase.downloadableName := by
    unfold Downloader.downloadableName urlBaseName
    rw [hd1, hb, urlPathChars_append_query base.data q.data hq hh hhq]
  have hn2 : d2.downloadableName = dbase.downloadableName := by
    unfold Downloader.downloadableName urlBaseName
    rw [hd2, hb, urlPathChars_append_fragment base.data f.data hh]
  have hn3 : d3.downloadableName = dbase.downloadableName := by
    unfold Downloader.downloadableName urlBaseName
    rw [hd3, hb, urlPathChars_append_fragment (base.data ++ '?' :: q.data) f.data hnf,
      urlPathChars_append_query base.data q.data hq hh hhq]
  refine ⟨by rw [Downloader.downloadableName, urlBaseName, hb], hn1, hn2, hn3, ?_⟩
  intro dir
  refine ⟨?_, ?_, ?_⟩
  · unfold Downloader.downloadablePath
    rw [hn1]
  · unfold Downloader.downloadablePath
    rw [hn2]
  · unfold Downloader.downloadablePath
    rw [hn3]

/-- The sample downloader's URL without its query. -/
def dWbase : Downloader := { dW with url := "https://example.com/dl/foo.tar.gz" }

/-- The sample downloader's URL with a fragment appended. -/
def dWfrag : Downloader := { dW with url := "https://example.com/dl/foo.tar.gz#sec" }

/-- The sample downloader's URL with both query and fragment. -/
def dWqf : Downloader := { dW with url := "https://example.com/dl/foo.tar.gz?a=1#sec" }

/-- Witness for C9 at a concrete input: query and fragment variants of the
sample URL all produce the same downloadable name as the bare URL. -/
theorem downloadableName_ignores_query_witness :
    dW.downloadableName = dWbase.downloadableName ∧
    dWfrag.downloadableName = dWbase.downloadableName ∧
    dWqf.downloadableName = dWbase.downloadableName := by
  have hth := downloadableName_ignores_query_and_fragment dW dWfrag dWqf dWbase
    "https://example.com/dl/foo.tar.gz" "a=1" "sec"
    (by decide) (by decide) (by decide) (by decide) (by decide) (by decide) rfl
  exact ⟨hth.2.1, hth.2.2.1, hth.2.2.2.1⟩

/-! ### C10 — link runs before move; empty source fields are no-ops -/

/-- C10: when both a symlink source and a move source are configured, the
placement stages run in a fixed order — link first creates the symlink at the
destination, then move deletes that destination entry and renames the
extracted file onto it (the trace shows the symlink creation strictly before
the delete and rename) — so the final destination entry is the moved regular
file, not a symlink; and a strategy whose source field is empty is a silent
no-op. -/
theorem placement_link_then_move (d : Downloader) (targetDir extractDir : String)
    (fs : Fs) (content : String)
    (hl : d.linkSource ≠ "") (hm : d.moveFrom ≠ "")
    (hdest : fs (d.binPath targetDir) = none ∨
      ∃ c, fs (d.binPath targetDir) = some (Node.file c))
    (hsrc : fs (pathJoin extractDir d.moveFrom) = some (Node.file content))
    (hne : pathJoin extractDir d.moveFrom ≠ d.binPath targetDir) :
    ((d.placeStages targetDir extractDir fs).1 = Except.ok () ∧
     ((d.placeStages targetDir extractDir fs).2.1) (d.binPath targetDir) =
       some (Node.file content) ∧
     (d.placeStages targetDir extractDir fs).2.2 =
       (if fileExists fs (d.binPath targetDir) then [Eff.delete (d.binPath targetDir)]
        else []) ++
       [Eff.symlinkE (pathJoin extractDir d.linkSource) (d.binPath targetDir),
        Eff.delete (d.binPath targetDir),
        Eff.renameE (pathJoin extractDir d.moveFrom) (d.binPath targetDir),
        Eff.chmodE (d.binPath targetDir)]) ∧
    (∀ d2 : Downloader, d2.linkSource = "" →
      d2.link targetDir extractDir fs = (Except.ok (), fs, [])) ∧
    (∀ d2 : Downloader, d2.moveFrom = "" →
      d2.move targetDir extractDir fs = (Except.ok (), fs, [])) := by
  refine ⟨?_, ?_, ?_⟩
  · -- the main run with both strategies configured
    have hmain : ∀ fs1 : Fs, fs1 (d.binPath targetDir) = none →
        fs1 (pathJoin extractDir d.moveFrom) = some (Node.file content) →
        ∀ tr1 : List Eff,
        andThen (Except.ok (), fsSet fs1 (d.binPath targetDir)
            (Node.symlink (pathJoin extractDir d.linkSource)), tr1)
          (fun fsx => andThen (d.move targetDir extractDir fsx)
            (fun fsy => d.chmod targetDir fsy)) =
          (Except.ok (),
           fsSet (fsErase (fsErase (fsSet fs1 (d.binPath targetDir)
               (Node.symlink (pathJoin extractDir d.linkSource)))
               (d.binPath targetDir)) (pathJoin extractDir d.moveFrom))
             (d.binPath targetDir) (Node.file content),
           tr1 ++ [Eff.delete (d.binPath targetDir),
             Eff.renameE (pathJoin extractDir d.moveFrom) (d.binPath targetDir),
             Eff.chmodE (d.binPath targetDir)]) := by
      intro fs1 hbp hsrc1 tr1
      have hmv : d.move targetDir extractDir
          (fsSet fs1 (d.binPath targetDir)
            (Node.symlink (pathJoin extractDir d.linkSource))) =
          (Except.ok (),
           fsSet (fsErase (fsErase (fsSet fs1 (d.binPath targetDir)
               (Node.symlink (pathJoin extractDir d.linkSource)))
               (d.binPath targetDir)) (pathJoin extractDir d.moveFrom))
             (d.binPath targetDir) (Node.file content),
           [Eff.delete (d.binPath targetDir),
            Eff.renameE (pathJoin extractDir d.moveFrom) (d.binPath targetDir)]) := by
        unfold Downloader.move
        rw [if_neg hm]
        dsimp only
        have hlook : (fsErase (fsSet fs1 (d.binPath targetDir)
            (Node.symlink (pathJoin extractDir d.linkSource))) (d.binPath targetDir))
            (pathJoin extractDir d.moveFrom) = some (Node.file content) := by
          simp only [fsErase, fsSet]
          rw [if_neg hne, if_neg hne]
          exact hsrc1
        rw [hlook]
      have hch : d.chmod targetDir
          (fsSet (fsErase (fsErase (fsSet fs1 (d.binPath targetDir)
              (Node.symlink (pathJoin extractDir d.linkSource)))
              (d.binPath targetDir)) (pathJoin extractDir d.moveFrom))
            (d.binPath targetDir) (Node.file content)) =
          (Except.ok (),
           fsSet (fsErase (fsErase (fsSet fs1 (d.binPath targetDir)
               (Node.symlink (pathJoin extractDir d.linkSource)))
               (d.binPath targetDir)) (pathJoin extractDir d.moveFrom))
             (d.binPath targetDir) (Node.file content),
           [Eff.chmodE (d.binPath targetDir)]) := by
        unfold Downloader.chmod
        rw [if_pos]
        simp [fileExists, readFile, fsSet]
      rw [andThen, hmv, andThen, hch]
      simp
    rcases hdest with hnone | ⟨c, hfile⟩
    · have hfe : fileExists fs (d.binPath targetDir) = false := by
        simp [fileExists, readFile, hnone]
      have hlink : d.link targetDir extractDir fs =
          (Except.ok (), fsSet fs (d.binPath targetDir)
            (Node.symlink (pathJoin extractDir d.linkSource)),
           [Eff.symlinkE (pathJoin extractDir d.linkSource) (d.binPath targetDir)]) := by
        unfold Downloader.link
        rw [if_neg hl]
        simp only [hfe, Bool.false_eq_true, if_false]
        rw [hnone]
        simp
      unfold Downloader.placeStages
      rw [hlink, hmain fs hnone hsrc _]
      refine ⟨rfl, ?_, ?_⟩
      · simp [fsSet]
      · simp [hfe]
    · have hfe : fileExists fs (d.binPath targetDir) = true := by
        simp [fileExists, readFile, hfile]
      have hlink : d.link targetDir extractDir fs =
          (Except.ok (), fsSet (fsErase fs (d.binPath targetDir)) (d.binPath targetDir)
            (Node.symlink (pathJoin extractDir d.linkSource)),
           [Eff.delete (d.binPath targetDir),
            Eff.symlinkE (pathJoin extractDir d.linkSource) (d.binPath targetDir)]) := by
        unfold Downloader.link
        rw [if_neg hl]
        simp only [hfe, if_true]
        have : (fsErase fs (d.binPath targetDir)) (d.binPath targetDir) = none := by
          simp [fsErase]
        rw [this]
        simp
      have hbp1 : (fsErase fs (d.binPath targetDir)) (d.binPath targetDir) = none := by
        simp [fsErase]
      have hsrc1 : (fsErase fs (d.binPath targetDir)) (pathJoin extractDir d.moveFrom) =
          some (Node.file content) := by
        simp only [fsErase]
        rw [if_neg hne]
        exact hsrc
      unfold Downloader.placeStages
      rw [hlink, hmain (fsErase fs (d.binPath targetDir)) hbp1 hsrc1 _]
      refine ⟨rfl, ?_, ?_⟩
      · simp [fsSet]
      · simp [hfe]
  · intro d2 h2
    unfold Downloader.link
    rw [if_pos h2]
  · intro d2 h2
    unfold Downloader.move
    rw [if_pos h2]

/-- A downloader with both placement strategies configured. -/
def dBoth : Downloader where
  url := "https://example.com/dl/x.tar.gz"
  checksum := "c"
  linkSource := "bin/foo.txt"
  binName := "foo"
  moveFrom := "bin/foo.txt"
  osName := ""
  arch := ""

/-- An extract directory holding the file both strategies point at. -/
def fsExtracted : Fs := fsSet fsEmpty "ex/bin/foo.txt" (Node.file "payload")

/-- Witness for C10 at a concrete input: with both strategies configured the
placement succeeds and the destination ends as the moved regular file. -/
theorem placement_link_then_move_witness :
    (dBoth.placeStages "t" "ex" fsExtracted).1 = Except.ok () ∧
    ((dBoth.placeStages "t" "ex" fsExtracted).2.1) (dBoth.binPath "t") =
      some (Node.file "payload") := by
  have hth := placement_link_then_move dBoth "t" "ex" fsExtracted "payload"
    (by decide) (by decide) (Or.inl rfl) rfl (by decide)
  exact ⟨hth.1.1, hth.1.2.1⟩

end Bindown
